import Mathlib

/-!
Shallow embedding of the `dns_resolver` crate (representative iteration under
`src/dns_resolver/src/`): name codec (`decode_name`, `decode_compressed_name`,
`encode_dns_name`), message primitives (`DNSHeader`, `DNSQuestion`,
`DNSRecord`), packet parser (`DNSPacket::try_from`), query builder
(`build_query`) and the resolution engine's per-packet transition (`resolve`).

Bytes are modelled as `Nat` (values < 256 wherever the source guarantees it);
Rust strings are modelled as their UTF-8 byte lists.  A Rust panic (slice
index out of bounds, `panic!`) is the `panicked` outcome; running out of fuel
models the unbounded recursion that the Rust code performs on malicious
compression pointers: a result of `fuelOut` for every fuel means the Rust
code never terminates on that input.
-/

/-- Big-endian bytes of a 16-bit value (`u16::to_be_bytes`). -/
def u16be (n : Nat) : List Nat := [n / 256 % 256, n % 256]

/-- `u16::from_be_bytes` over two byte values. -/
def u16fromBe (hi lo : Nat) : Nat := hi * 256 + lo

/-- `u32::from_be_bytes` over four byte values. -/
def u32fromBe (a b c d : Nat) : Nat := ((a * 256 + b) * 256 + c) * 256 + d

/-- Byte of `data` at index `i`; only consulted after a bounds check,
mirroring Rust's panicking index (the default is never observable). -/
def byteAt (data : List Nat) (i : Nat) : Nat := data.getD i 0

/-- `std::net::Ipv4Addr`, as its four octets. -/
structure Ipv4 where
  a : Nat
  b : Nat
  c : Nat
  d : Nat
deriving DecidableEq, Repr

/-- `record_type.rs`: the `RecordType` enum. -/
inductive RecordType where
  | A
  | NS
  | CNAME
  | NotImplemented
deriving DecidableEq, Repr

/-- `record_type as u16` (discriminants A=1, NS=2, CNAME=5, NotImplemented=6). -/
def RecordType.code : RecordType → Nat
  | .A => 1
  | .NS => 2
  | .CNAME => 5
  | .NotImplemented => 6

/-- `RecordType::try_from(u16)`: total, every unknown code becomes
`NotImplemented` (the Rust impl always returns `Ok`). -/
def RecordType.fromCode (n : Nat) : RecordType :=
  if n = 1 then .A else if n = 2 then .NS else if n = 5 then .CNAME else .NotImplemented

/-- `class.rs`: the class enum (only `In`); named `DnsClass` here to avoid a
library name clash. -/
inductive DnsClass where
  | In
deriving DecidableEq, Repr

/-- `class as u16`. -/
def DnsClass.code : DnsClass → Nat
  | .In => 1

/-- The class enum's `try_from(u16)`: `1 => In`, anything else is an `Err`. -/
def DnsClass.fromCode (n : Nat) : Option DnsClass :=
  if n = 1 then some .In else none

/-- `record_data.rs`: the `RecordData` enum. -/
inductive RecordData where
  | A (ip : Ipv4)
  | NS (name : List Nat)
  | Other (data : List Nat)
deriving DecidableEq, Repr

/-- `matches!(data, RecordData::A(_))`. -/
def RecordData.isA : RecordData → Bool
  | .A _ => true
  | _ => false

/-- `RecordData::get_A`. -/
def RecordData.getA : RecordData → Option Ipv4
  | .A ip => some ip
  | _ => none

/-- `matches!(data, RecordData::NS(_))`. -/
def RecordData.isNS : RecordData → Bool
  | .NS _ => true
  | _ => false

/-- `RecordData::get_NS`. -/
def RecordData.getNS : RecordData → Option (List Nat)
  | .NS n => some n
  | _ => none

/-- `dns_record.rs`: the `DNSRecord` struct (class kept raw, unvalidated). -/
structure DNSRecord where
  name : List Nat
  type_ : RecordType
  class_ : Nat
  ttl : Nat
  data : RecordData
deriving DecidableEq, Repr

/-- `dns_header.rs`: the `DNSHeader` struct. -/
structure DNSHeader where
  id : Nat
  flags : Nat
  numQuestions : Nat
  numAnswers : Nat
  numAuthorities : Nat
  numAdditionals : Nat
deriving DecidableEq, Repr

/-- `dns_question.rs`: the `DNSQuestion` struct. -/
structure DNSQuestion where
  name : List Nat
  type_ : RecordType
  class_ : DnsClass
deriving DecidableEq, Repr

/-- `dns_packet.rs`: the `DNSPacket` struct. -/
structure DNSPacket where
  header : DNSHeader
  questions : List DNSQuestion
  answers : List DNSRecord
  authorities : List DNSRecord
  additionals : List DNSRecord
deriving DecidableEq, Repr

/-- Outcome of `decode_name`: success with the dotted name and the number of
bytes consumed at the cursor, a panic (out-of-bounds access), or fuel
exhaustion (standing for the source's unbounded pointer recursion). -/
inductive NameRes where
  | ok (name : List Nat) (consumed : Nat)
  | panicked
  | fuelOut
deriving DecidableEq, Repr

/-- `decode_name`'s while loop together with `decode_compressed_name`.
`cursor` is the position the surrounding call started at, `pos` the current
read position, `parts` the labels accumulated so far.  A length byte with
either of its top two bits set (`len & 0b11000000 != 0`) is a compression
pointer whose 14-bit target restarts decoding with a fresh cursor. -/
def decodeNameAux (data : List Nat) : Nat → Nat → Nat → List (List Nat) → NameRes
  | 0, _, _, _ => .fuelOut
  | fuel + 1, cursor, pos, parts =>
    match data.get? pos with
    | none => .panicked
    | some len =>
      if len = 0 then
        .ok (List.intercalate [46] parts) (pos + 1 - cursor)
      else if len &&& 192 != 0 then
        match data.get? (pos + 1) with
        | none => .panicked
        | some nxt =>
          match decodeNameAux data fuel ((len &&& 63) * 256 + nxt) ((len &&& 63) * 256 + nxt) [] with
          | .ok sub _ => .ok (List.intercalate [46] (parts ++ [sub])) (pos + 2 - cursor)
          | r => r
      else
        if pos + 1 + len ≤ data.length then
          decodeNameAux data fuel cursor (pos + 1 + len) (parts ++ [(data.drop (pos + 1)).take len])
        else .panicked

/-- `decode_name(data, cursor)`. -/
def decodeName (data : List Nat) (fuel cursor : Nat) : NameRes :=
  decodeNameAux data fuel cursor cursor []

/-- `encode_dns_name`: split on `.` (byte 46), length-prefix each label
(`label.len() as u8`, i.e. modulo 256), concatenate, append a 0 byte. -/
def encodeDnsName (domain_name : List Nat) : List Nat :=
  ((domain_name.splitOn 46).foldl (fun acc label => acc ++ [label.length % 256] ++ label) []) ++ [0]

/-- Outcome of `DNSRecord::parse`: success carries the record and the bytes
consumed from the cursor. -/
inductive RecordRes where
  | ok (r : DNSRecord) (consumed : Nat)
  | panicked
  | fuelOut
deriving DecidableEq, Repr

/-- `DNSRecord::parse((data, cursor))`: decode the owner name, read the five
fixed big-endian fields (type, class, ttl, rdlength = 10 bytes), then read
RDATA according to the type alone: `A` reads 4 bytes, `NS`/`CNAME` decode a
(possibly compressed) name, anything else reads `rdlength` verbatim bytes.
Out-of-bounds slices panic in the source and yield `panicked` here. -/
def DNSRecord.parse (fuel : Nat) (data : List Nat) (cursor : Nat) : RecordRes :=
  match decodeName data fuel cursor with
  | .fuelOut => .fuelOut
  | .panicked => .panicked
  | .ok name current =>
    let pos := cursor + current
    if data.length < pos + 10 then .panicked
    else
      let type_ := u16fromBe (byteAt data pos) (byteAt data (pos + 1))
      let class_ := u16fromBe (byteAt data (pos + 2)) (byteAt data (pos + 3))
      let ttl := u32fromBe (byteAt data (pos + 4)) (byteAt data (pos + 5))
        (byteAt data (pos + 6)) (byteAt data (pos + 7))
      let data_length := u16fromBe (byteAt data (pos + 8)) (byteAt data (pos + 9))
      match RecordType.fromCode type_ with
      | .A =>
        if data.length < pos + 10 + 4 then .panicked
        else
          .ok
            ⟨name, RecordType.fromCode type_, class_, ttl,
              .A ⟨byteAt data (pos + 10), byteAt data (pos + 11),
                byteAt data (pos + 12), byteAt data (pos + 13)⟩⟩
            (pos + 10 + 4 - cursor)
      | .NS | .CNAME =>
        match decodeName data fuel (pos + 10) with
        | .fuelOut => .fuelOut
        | .panicked => .panicked
        | .ok rname rcurrent =>
          .ok ⟨name, RecordType.fromCode type_, class_, ttl, .NS rname⟩
            (pos + 10 + rcurrent - cursor)
      | .NotImplemented =>
        if data.length < pos + 10 + data_length then .panicked
        else
          .ok
            ⟨name, RecordType.fromCode type_, class_, ttl,
              .Other ((data.drop (pos + 10)).take data_length)⟩
            (pos + 10 + data_length - cursor)

/-- `DNSHeader::new(id, flags)`: `num_questions = 1`, other counts default 0. -/
def DNSHeader.new (id flags : Nat) : DNSHeader :=
  ⟨id, flags, 1, 0, 0, 0⟩

/-- `DNSHeader::to_bytes`: the six fields big-endian, in order. -/
def DNSHeader.toBytes (h : DNSHeader) : List Nat :=
  u16be h.id ++ u16be h.flags ++ u16be h.numQuestions ++ u16be h.numAnswers ++
    u16be h.numAuthorities ++ u16be h.numAdditionals

/-- `DNSHeader::try_from` over the 12-byte slice the caller passes. -/
def DNSHeader.tryFrom (value : List Nat) : DNSHeader :=
  ⟨u16fromBe (byteAt value 0) (byteAt value 1),
   u16fromBe (byteAt value 2) (byteAt value 3),
   u16fromBe (byteAt value 4) (byteAt value 5),
   u16fromBe (byteAt value 6) (byteAt value 7),
   u16fromBe (byteAt value 8) (byteAt value 9),
   u16fromBe (byteAt value 10) (byteAt value 11)⟩

/-- `DNSQuestion::to_bytes`: stored wire-encoded name, then type and class
big-endian. -/
def DNSQuestion.toBytes (q : DNSQuestion) : List Nat :=
  q.name ++ u16be q.type_.code ++ u16be q.class_.code

/-- Outcome of parsing one packet section: the entries parsed plus the cursor
after them; `err` is a propagated `Err` (unknown class). -/
inductive SecRes (α : Type) where
  | ok (items : List α) (pos : Nat)
  | err
  | panicked
  | fuelOut
deriving DecidableEq, Repr

/-- The question loop of `DNSPacket::try_from`: decode a name, slice 4 bytes
for type and class (`DNSQuestion::try_from`), repeat `count` times.  A class
other than 1 is an `Err`; a short slice panics. -/
def parseQuestions (fuel : Nat) (data : List Nat) : Nat → Nat → SecRes DNSQuestion
  | 0, pos => .ok [] pos
  | count + 1, pos =>
    match decodeName data fuel pos with
    | .fuelOut => .fuelOut
    | .panicked => .panicked
    | .ok name current =>
      let pos := pos + current
      if data.length < pos + 4 then .panicked
      else
        match DnsClass.fromCode (u16fromBe (byteAt data (pos + 2)) (byteAt data (pos + 3))) with
        | none => .err
        | some cls =>
          match parseQuestions fuel data count (pos + 4) with
          | .ok qs pos' =>
            .ok (⟨name, RecordType.fromCode (u16fromBe (byteAt data pos) (byteAt data (pos + 1))), cls⟩ :: qs) pos'
          | r => r

/-- A record loop of `DNSPacket::try_from`: `count` consecutive
`DNSRecord::parse` calls, each advancing the cursor by the bytes consumed. -/
def parseRecords (fuel : Nat) (data : List Nat) : Nat → Nat → SecRes DNSRecord
  | 0, pos => .ok [] pos
  | count + 1, pos =>
    match DNSRecord.parse fuel data pos with
    | .fuelOut => .fuelOut
    | .panicked => .panicked
    | .ok r consumed =>
      match parseRecords fuel data count (pos + consumed) with
      | .ok rs pos' => .ok (r :: rs) pos'
      | x => x

/-- Outcome of `DNSPacket::try_from`. -/
inductive PacketRes where
  | ok (p : DNSPacket)
  | err
  | panicked
  | fuelOut
deriving DecidableEq, Repr

/-- `DNSPacket::try_from(packet)`: slice the first 12 bytes for the header
(panics when the buffer is shorter), then parse exactly the declared number
of questions, answers, authorities and additionals, threading the cursor. -/
def DNSPacket.tryFrom (fuel : Nat) (packet : List Nat) : PacketRes :=
  if packet.length < 12 then .panicked
  else
    let header := DNSHeader.tryFrom (packet.take 12)
    match parseQuestions fuel packet header.numQuestions 12 with
    | .err => .err
    | .panicked => .panicked
    | .fuelOut => .fuelOut
    | .ok questions pos1 =>
      match parseRecords fuel packet header.numAnswers pos1 with
      | .err => .err
      | .panicked => .panicked
      | .fuelOut => .fuelOut
      | .ok answers pos2 =>
        match parseRecords fuel packet header.numAuthorities pos2 with
        | .err => .err
        | .panicked => .panicked
        | .fuelOut => .fuelOut
        | .ok authorities pos3 =>
          match parseRecords fuel packet header.numAdditionals pos3 with
          | .err => .err
          | .panicked => .panicked
          | .fuelOut => .fuelOut
          | .ok additionals _ =>
            .ok ⟨header, questions, answers, authorities, additionals⟩

/-- `build_query(domain_name, record_type, flags)` with the random transaction
id made an explicit argument. -/
def buildQuery (id : Nat) (domain_name : List Nat) (record_type : RecordType) (flags : Nat) : List Nat :=
  (DNSHeader.new id flags).toBytes ++
    (DNSQuestion.toBytes ⟨encodeDnsName domain_name, record_type, DnsClass.In⟩)

/-- `get_answer`: first answer-section record whose data is `RecordData::A`. -/
def getAnswer (packet : DNSPacket) : Option DNSRecord :=
  packet.answers.find? (fun r => r.data.isA)

/-- `get_name_server_ip`: first additional-section `A` record's address.  The
Rust `panic!` arm inside its `map` is unreachable because the `find`
predicate only accepts `A` records, so `get_A` extraction is faithful. -/
def getNameServerIp (packet : DNSPacket) : Option Ipv4 :=
  (packet.additionals.find? (fun r => r.data.isA)).bind (fun r => r.data.getA)

/-- `get_name_server`: first authority-section `NS` record's name; the Rust
`panic!` arm is unreachable as in `getNameServerIp`. -/
def getNameServer (packet : DNSPacket) : Option (List Nat) :=
  (packet.authorities.find? (fun r => r.data.isNS)).bind (fun r => r.data.getNS)

/-- One transition of the `resolve` loop on a received packet. -/
inductive ResolveStep where
  | resolved (ip : Ipv4)
  | queryGlue (ip : Ipv4)
  | resolveNS (name : List Nat)
  | panicked
deriving DecidableEq, Repr

/-- The body of `resolve`'s loop after `send_query` returns `packet`: return
the first `A` answer's address; otherwise re-query the same name at the
first additional `A` (glue) address; otherwise recursively resolve the first
authority `NS` name; otherwise `panic!("Expected packet")`. -/
def resolveStep (packet : DNSPacket) : ResolveStep :=
  match getAnswer packet with
  | some answer =>
    match answer.data with
    | .A ip => .resolved ip
    | _ => .panicked
  | none =>
    match getNameServerIp packet with
    | some ip => .queryGlue ip
    | none =>
      match getNameServer packet with
      | some ns => .resolveNS ns
      | none => .panicked

/-! ## Helper lemmas -/

/-- The label byte area an encoded name consists of, before the terminator. -/
def encLabels (ls : List (List Nat)) : List Nat :=
  (ls.map (fun l => l.length % 256 :: l)).flatten

theorem foldl_encLabels (ls : List (List Nat)) (acc : List Nat) :
    ls.foldl (fun acc label => acc ++ [label.length % 256] ++ label) acc = acc ++ encLabels ls := by
  induction ls generalizing acc with
  | nil => simp [encLabels]
  | cons l ls ih =>
    rw [List.foldl_cons, ih]
    simp [encLabels, List.append_assoc]

theorem encodeDnsName_eq (name : List Nat) :
    encodeDnsName name = encLabels (name.splitOn 46) ++ [0] := by
  rw [encodeDnsName, foldl_encLabels, List.nil_append]

/-- An ordinary label length byte (< 64) never trips the pointer mask test. -/
theorem land192_eq_zero (n : Nat) (h : n < 64) : n &&& 192 = 0 := by
  revert h
  revert n
  decide

theorem length_encLabels (ls : List (List Nat)) :
    (encLabels ls).length = (ls.map (fun l => l.length + 1)).sum := by
  induction ls with
  | nil => simp [encLabels]
  | cons l ls ih => simp [encLabels, List.flatten] at ih ⊢; omega

theorem getElem?_eq_of_drop {data : List Nat} {pos x : Nat} {xs : List Nat}
    (h : data.drop pos = x :: xs) : data[pos]? = some x := by
  have hlt : pos < data.length := by
    by_contra hge
    push_neg at hge
    rw [List.drop_eq_nil_of_le hge] at h
    cases h
  rw [List.getElem?_eq_getElem hlt]
  have h2 := List.drop_eq_getElem_cons hlt
  rw [h2] at h
  cases h
  rfl

/-- Key decoding lemma: when the bytes at `pos` are a run of ordinary labels
followed by the 0 terminator (with arbitrary bytes after it), the decoder's
loop consumes exactly the labels plus the terminator and joins the labels
with dots onto the accumulated parts. -/
theorem decodeNameAux_plain (ls : List (List Nat)) (data rest : List Nat) (cursor : Nat) :
    ∀ (fuel pos : Nat) (parts : List (List Nat)),
      (∀ l ∈ ls, l ≠ [] ∧ l.length ≤ 63) →
      data.drop pos = encLabels ls ++ 0 :: rest →
      ls.length + 1 ≤ fuel →
      decodeNameAux data fuel cursor pos parts =
        .ok (List.intercalate [46] (parts ++ ls)) (pos + (encLabels ls).length + 1 - cursor) := by
  induction ls with
  | nil =>
    intro fuel pos parts _ hdrop hfuel
    cases fuel with
    | zero => omega
    | succ fuel =>
      have hget : data[pos]? = some 0 := by
        apply getElem?_eq_of_drop
        simpa [encLabels] using hdrop
      simp [decodeNameAux, hget, encLabels]
  | cons l ls ih =>
    intro fuel pos parts hlab hdrop hfuel
    cases fuel with
    | zero => simp at hfuel
    | succ fuel =>
      obtain ⟨hlne, hl63⟩ := hlab l (List.mem_cons_self l ls)
      have hlen0 : l.length ≠ 0 := by simpa using hlne
      have hmod : l.length % 256 = l.length := Nat.mod_eq_of_lt (by omega)
      have hdrop2 : data.drop pos = l.length :: (l ++ (encLabels ls ++ 0 :: rest)) := by
        rw [hdrop]
        simp [encLabels, hmod, List.append_assoc]
      have hget : data[pos]? = some l.length := getElem?_eq_of_drop hdrop2
      have hland : l.length &&& 192 = 0 := land192_eq_zero _ (by omega)
      have hlendata : pos + 1 + l.length ≤ data.length := by
        have h1 : (data.drop pos).length = data.length - pos := by simp
        rw [hdrop2] at h1
        simp at h1
        omega
      have htail : data.drop (pos + 1) = l ++ (encLabels ls ++ 0 :: rest) := by
        have h2 := List.drop_drop 1 pos data
        rw [hdrop2] at h2
        simpa using h2.symm
      have htake : (data.drop (pos + 1)).take l.length = l := by
        rw [htail]
        exact List.take_left' rfl
      have hdropnext : data.drop (pos + 1 + l.length) = encLabels ls ++ 0 :: rest := by
        have h3 := List.drop_drop l.length (pos + 1) data
        rw [htail] at h3
        rw [← h3]
        exact List.drop_left' rfl
      have hfuel2 : ls.length + 1 ≤ fuel := by simp at hfuel; omega
      have hrec := ih fuel (pos + 1 + l.length) (parts ++ [l])
        (fun x hx => hlab x (List.mem_cons_of_mem l hx)) hdropnext hfuel2
      have hlenc : (encLabels (l :: ls)).length = l.length + 1 + (encLabels ls).length := by
        simp [encLabels, hmod]
        omega
      have hcond : ¬((l.length &&& 192 != 0) = true) := by simp [hland]
      simp only [decodeNameAux, List.get?_eq_getElem?, hget]
      rw [if_neg hlen0]
      rw [if_neg hcond]
      rw [if_pos hlendata]
      rw [htake, hrec]
      congr 1
      · simp
      · omega

theorem intercalate_cons2 (a b : List Nat) (tl : List (List Nat)) :
    List.intercalate [46] (a :: b :: tl) = a ++ 46 :: List.intercalate [46] (b :: tl) := by
  simp [List.intercalate, List.intersperse_cons_cons]

theorem length_intercalate46 : ∀ (ls : List (List Nat)), ls ≠ [] →
    (List.intercalate [46] ls).length + 1 = (ls.map (fun l => l.length + 1)).sum := by
  intro ls
  induction ls with
  | nil => intro h; exact absurd rfl h
  | cons a ls ih =>
    intro _
    cases ls with
    | nil => simp [List.intercalate]
    | cons b tl =>
      have h := ih (by simp)
      rw [intercalate_cons2]
      simp only [List.map_cons, List.sum_cons] at h ⊢
      simp only [List.length_append, List.length_cons]
      omega

theorem fromCode_code (t : RecordType) : RecordType.fromCode t.code = t := by
  cases t <;> rfl

/-- C5: for a domain name made of labels of length 1 to 63, decoding the
encoding from cursor 0 returns the original dotted name and reports a
`bytes_consumed` equal to the length of the encoding. -/
theorem decode_encode_roundtrip (name : List Nat) (fuel : Nat)
    (hlab : ∀ l ∈ name.splitOn 46, l ≠ [] ∧ l.length ≤ 63)
    (hfuel : (name.splitOn 46).length + 1 ≤ fuel) :
    decodeName (encodeDnsName name) fuel 0 = .ok name (encodeDnsName name).length := by
  have hdrop : (encodeDnsName name).drop 0 = encLabels (name.splitOn 46) ++ 0 :: [] := by
    simp [encodeDnsName_eq]
  have h := decodeNameAux_plain (name.splitOn 46) (encodeDnsName name) [] 0 fuel 0 [] hlab hdrop hfuel
  rw [decodeName, h]
  congr 1
  · simpa using List.intercalate_splitOn name 46
  · simp [encodeDnsName_eq]

/-- Witness for C5 at the concrete name "ab.c". -/
theorem decode_encode_roundtrip_witness :
    decodeName (encodeDnsName [97, 98, 46, 99]) 3 0 =
      .ok [97, 98, 46, 99] (encodeDnsName [97, 98, 46, 99]).length :=
  decode_encode_roundtrip [97, 98, 46, 99] 3 (by decide) (by decide)

/-- C9: for every input byte string, even with empty or over-long labels,
the encoding has length exactly `s.len() + 2` and its final byte is 0. -/
theorem encode_length_terminator (s : List Nat) :
    (encodeDnsName s).length = s.length + 2 ∧ (encodeDnsName s).getLast? = some 0 := by
  constructor
  · have hne : s.splitOn 46 ≠ [] := by
      rw [List.splitOn]
      exact List.splitOnP_ne_nil _ s
    have h1 := length_intercalate46 (s.splitOn 46) hne
    have h2 := length_encLabels (s.splitOn 46)
    have h3 : List.intercalate [46] (s.splitOn 46) = s := List.intercalate_splitOn s 46
    rw [h3] at h1
    rw [encodeDnsName_eq]
    simp only [List.length_append, List.length_cons, List.length_nil]
    omega
  · rw [encodeDnsName_eq]
    exact List.getLast?_concat _

set_option maxRecDepth 4096 in
/-- C6 counterexample: a name that is one 256-byte label does not fail; it is
encoded with a truncated length byte `256 % 256 = 0` followed by the label
bytes and the terminator. -/
theorem encode_overlong_label_no_error :
    encodeDnsName (List.replicate 256 97) = 0 :: (List.replicate 256 97 ++ [0]) := by
  decide

/-- C6 (amended): the encoder never fails; whenever every label is at most
255 bytes, each label is prefixed by its exact length, the results are
concatenated, and a single 0 byte terminates; an over-long label's length is
silently reduced modulo 256 instead of being rejected. -/
theorem encode_exact_lengths (name : List Nat)
    (h : ∀ l ∈ name.splitOn 46, l.length ≤ 255) :
    encodeDnsName name = ((name.splitOn 46).map (fun l => l.length :: l)).flatten ++ [0] := by
  rw [encodeDnsName_eq]
  congr 1
  rw [encLabels]
  congr 1
  apply List.map_congr_left
  intro l hl
  have hle := h l hl
  have hmod : l.length % 256 = l.length := Nat.mod_eq_of_lt (by omega)
  rw [hmod]

/-- Witness for C6's amended statement at the concrete name "a.b". -/
theorem encode_exact_lengths_witness :
    encodeDnsName [97, 46, 98] =
      (([97, 46, 98].splitOn 46).map (fun l => l.length :: l)).flatten ++ [0] :=
  encode_exact_lengths [97, 46, 98] (by decide)

/-- C8: for every transaction id, domain name, record type and flags value,
`build_query` emits the six big-endian header fields in order with
`qdcount = 1` and the other counts 0 (12 bytes), immediately followed by one
question (encoded name, type, class IN) and nothing else. -/
theorem buildQuery_layout (id flags : Nat) (record_type : RecordType) (name : List Nat) :
    buildQuery id name record_type flags =
      (u16be id ++ u16be flags ++ u16be 1 ++ u16be 0 ++ u16be 0 ++ u16be 0) ++
        (encodeDnsName name ++ u16be record_type.code ++ u16be DnsClass.In.code) ∧
    (u16be id ++ u16be flags ++ u16be 1 ++ u16be 0 ++ u16be 0 ++ u16be 0).length = 12 := by
  refine ⟨?_, by simp [u16be]⟩
  simp [buildQuery, DNSHeader.new, DNSHeader.toBytes, DNSQuestion.toBytes, List.append_assoc]

/-- C3: the decoder has no guard at all: on a buffer whose first byte is a
self-pointer (`0xC0 0x00`, target offset 0 = its own position) it recurses
forever -- for every fuel bound the model exhausts the fuel, so the source,
which has no bound, never returns (stack overflow), and in particular never
produces a MalformedCompression error (no such error value even exists). -/
theorem decodeName_self_pointer_diverges (fuel : Nat) :
    decodeName [192, 0] fuel 0 = .fuelOut := by
  induction fuel with
  | zero => rfl
  | succ n ih =>
    have h : decodeNameAux [192, 0] n 0 0 [] = .fuelOut := ih
    have h2 : (192 &&& 63) * 256 = 0 := by decide
    simp [decodeName, decodeNameAux, h, h2]

/-- C2: the code panics instead of returning errors: a parsed response with
no answer, no additional A record and no authority NS record drives the
`resolve` transition into `panic!("Expected packet")`, and an A record whose
RDATA is cut short makes `DNSRecord::parse` panic on an out-of-bounds slice. -/
theorem resolve_panics_on_unusable_input :
    (DNSPacket.tryFrom 5 [0, 0, 0, 0, 0, 0, 0, 0, 0, 0, 0, 0] =
        .ok ⟨⟨0, 0, 0, 0, 0, 0⟩, [], [], [], []⟩ ∧
      resolveStep ⟨⟨0, 0, 0, 0, 0, 0⟩, [], [], [], []⟩ = .panicked) ∧
    DNSRecord.parse 5 [0, 0, 1, 0, 1, 0, 0, 0, 0, 0, 4, 1, 2] 0 = .panicked := by
  decide

/-- C4: a buffer shorter than its header's declared contents makes the parser
panic (out-of-bounds slice), not return a `Truncated` error: first a 5-byte
buffer (shorter than the 12-byte header), then a header claiming `ancount=2`
over a buffer holding only one full record after it. -/
theorem packet_parse_truncated_panics :
    DNSPacket.tryFrom 16 [0, 0, 0, 0, 0] = .panicked ∧
    DNSPacket.tryFrom 16
        [0, 0, 0, 0, 0, 0, 0, 2, 0, 0, 0, 0,
         0, 0, 1, 0, 1, 0, 0, 0, 0, 0, 4, 1, 1, 1, 1] = .panicked := by
  decide

theorem find?_append_first (pred : DNSRecord → Bool) (r : DNSRecord) (post : List DNSRecord)
    (hr : pred r = true) :
    ∀ pre : List DNSRecord, (∀ q ∈ pre, pred q = false) →
      (pre ++ r :: post).find? pred = some r := by
  intro pre
  induction pre with
  | nil =>
    intro _
    simp [List.find?_cons, hr]
  | cons q pre ih =>
    intro hpre
    have hq : pred q = false := hpre q (List.mem_cons_self _ _)
    rw [List.cons_append, List.find?_cons_of_neg]
    · exact ih (fun x hx => hpre x (List.mem_cons_of_mem _ hx))
    · simp [hq]

/-- C1 (amended): whenever the answer section contains a type-A record, the
`resolve` transition terminates successfully with the address of the first
type-A answer record in server order -- regardless of that record's owner
name and ignoring all later answer entries. -/
theorem resolveStep_first_typeA (p : DNSPacket) (pre post : List DNSRecord)
    (r : DNSRecord) (ip : Ipv4)
    (hsplit : p.answers = pre ++ r :: post)
    (hpre : ∀ q ∈ pre, q.data.isA = false)
    (hr : r.data = .A ip) :
    resolveStep p = .resolved ip := by
  have hfind : getAnswer p = some r := by
    rw [getAnswer, hsplit]
    exact find?_append_first _ r post (by simp [hr, RecordData.isA]) pre hpre
  simp [resolveStep, hfind, hr]

/-- Witness for C1's amended statement on a one-answer packet. -/
theorem resolveStep_first_typeA_witness :
    resolveStep ⟨⟨0, 0, 0, 1, 0, 0⟩, [], [⟨[], .A, 1, 0, .A ⟨9, 9, 9, 9⟩⟩], [], []⟩ =
      .resolved ⟨9, 9, 9, 9⟩ :=
  resolveStep_first_typeA _ [] [] ⟨[], .A, 1, 0, .A ⟨9, 9, 9, 9⟩⟩ ⟨9, 9, 9, 9⟩ rfl
    (by intro q hq; cases hq) rfl

/-- C1 counterexample: resolving the name "query" against a parsed response
whose answers are an A record for the different owner "other" (1.1.1.1)
followed by an A record for the queried name "query" (2.2.2.2): the first
record of the requested type for the queried name holds 2.2.2.2, yet the
transition returns 1.1.1.1 -- the owner name is never consulted. -/
theorem resolveStep_owner_name_cex :
    DNSPacket.tryFrom 16
        [0, 0, 0, 0, 0, 0, 0, 2, 0, 0, 0, 0,
         5, 111, 116, 104, 101, 114, 0, 0, 1, 0, 1, 0, 0, 0, 0, 0, 4, 1, 1, 1, 1,
         5, 113, 117, 101, 114, 121, 0, 0, 1, 0, 1, 0, 0, 0, 0, 0, 4, 2, 2, 2, 2] =
      .ok ⟨⟨0, 0, 0, 2, 0, 0⟩, [],
        [⟨[111, 116, 104, 101, 114], .A, 1, 0, .A ⟨1, 1, 1, 1⟩⟩,
         ⟨[113, 117, 101, 114, 121], .A, 1, 0, .A ⟨2, 2, 2, 2⟩⟩], [], []⟩ ∧
    ([⟨[111, 116, 104, 101, 114], .A, 1, 0, .A ⟨1, 1, 1, 1⟩⟩,
      (⟨[113, 117, 101, 114, 121], .A, 1, 0, .A ⟨2, 2, 2, 2⟩⟩ : DNSRecord)].filter
        (fun r => r.name == [113, 117, 101, 114, 121])) =
      [⟨[113, 117, 101, 114, 121], .A, 1, 0, .A ⟨2, 2, 2, 2⟩⟩] ∧
    resolveStep ⟨⟨0, 0, 0, 2, 0, 0⟩, [],
        [⟨[111, 116, 104, 101, 114], .A, 1, 0, .A ⟨1, 1, 1, 1⟩⟩,
         ⟨[113, 117, 101, 114, 121], .A, 1, 0, .A ⟨2, 2, 2, 2⟩⟩], [], []⟩ =
      .resolved ⟨1, 1, 1, 1⟩ ∧
    (⟨1, 1, 1, 1⟩ : Ipv4) ≠ ⟨2, 2, 2, 2⟩ := by
  decide

theorem byteAt_append_right (xs ys : List Nat) (i : Nat) :
    byteAt (xs ++ ys) (xs.length + i) = byteAt ys i := by
  simp [byteAt, List.getD_eq_getD_get?, List.get?_eq_getElem?,
    List.getElem?_append_right (Nat.le_add_right xs.length i)]

/-- C7: RDATA interpretation and consumption are decided by the type field
alone: type A takes exactly 4 RDATA bytes as an address (with no constraint
on the declared RDLENGTH), NS and CNAME decode RDATA through the name codec
and consume exactly what it reports, and every other type code consumes
exactly RDLENGTH verbatim bytes into the opaque variant without an error. -/
theorem parse_rdata_by_type (fuel : Nat) (data : List Nat) (cursor c : Nat)
    (name : List Nat) (tcode cls ttlv rdlen : Nat)
    (hname : decodeName data fuel cursor = .ok name c)
    (hroom : cursor + c + 10 ≤ data.length)
    (htcode : u16fromBe (byteAt data (cursor + c)) (byteAt data (cursor + c + 1)) = tcode)
    (hcls : u16fromBe (byteAt data (cursor + c + 2)) (byteAt data (cursor + c + 3)) = cls)
    (httl : u32fromBe (byteAt data (cursor + c + 4)) (byteAt data (cursor + c + 5))
        (byteAt data (cursor + c + 6)) (byteAt data (cursor + c + 7)) = ttlv)
    (hrdlen : u16fromBe (byteAt data (cursor + c + 8)) (byteAt data (cursor + c + 9)) = rdlen) :
    (RecordType.fromCode tcode = .A → cursor + c + 14 ≤ data.length →
      DNSRecord.parse fuel data cursor =
        .ok ⟨name, .A, cls, ttlv,
          .A ⟨byteAt data (cursor + c + 10), byteAt data (cursor + c + 11),
            byteAt data (cursor + c + 12), byteAt data (cursor + c + 13)⟩⟩ (c + 14)) ∧
    ((RecordType.fromCode tcode = .NS ∨ RecordType.fromCode tcode = .CNAME) →
      ∀ rname rc, decodeName data fuel (cursor + c + 10) = .ok rname rc →
      DNSRecord.parse fuel data cursor =
        .ok ⟨name, RecordType.fromCode tcode, cls, ttlv, .NS rname⟩ (c + 10 + rc)) ∧
    (RecordType.fromCode tcode = .NotImplemented → cursor + c + 10 + rdlen ≤ data.length →
      DNSRecord.parse fuel data cursor =
        .ok ⟨name, .NotImplemented, cls, ttlv,
          .Other ((data.drop (cursor + c + 10)).take rdlen)⟩ (c + 10 + rdlen)) := by
  have hnl : ¬(data.length < cursor + c + 10) := by omega
  refine ⟨?_, ?_, ?_⟩
  · intro hA h14
    have h4 : ¬(data.length < cursor + c + 10 + 4) := by omega
    simp only [DNSRecord.parse, hname, htcode, hA]
    rw [if_neg hnl, if_neg h4, hcls, httl]
    have hcons : cursor + c + 10 + 4 - cursor = c + 14 := by omega
    rw [hcons]
  · intro hNSC rname rc hrec
    have hcons : cursor + c + 10 + rc - cursor = c + 10 + rc := by omega
    rcases hNSC with h | h <;>
      · simp only [DNSRecord.parse, hname, htcode, h]
        rw [if_neg hnl]
        simp only [hrec]
        rw [hcls, httl, hcons]
  · intro hO hrl
    have hno : ¬(data.length < cursor + c + 10 + rdlen) := by omega
    have hcons : cursor + c + 10 + rdlen - cursor = c + 10 + rdlen := by omega
    simp only [DNSRecord.parse, hname, htcode, hO, hrdlen]
    rw [if_neg hnl, if_neg hno, hcls, httl, hcons]

/-- Witness for C7 in the type-A case, with a declared RDLENGTH of 0 that is
ignored: 4 RDATA bytes are consumed regardless. -/
theorem parse_rdata_by_type_witness :
    DNSRecord.parse 1 [0, 0, 1, 0, 1, 0, 0, 0, 0, 0, 0, 9, 8, 7, 6] 0 =
      .ok ⟨[], .A, 1, 0, .A ⟨9, 8, 7, 6⟩⟩ 15 :=
  (parse_rdata_by_type 1 [0, 0, 1, 0, 1, 0, 0, 0, 0, 0, 0, 9, 8, 7, 6] 0 1 [] 1 1 0 0
    (by decide) (by decide) (by decide) (by decide) (by decide) (by decide)).1
    (by decide) (by decide)

theorem u16fromBe_be (n : Nat) (h : n < 65536) : u16fromBe (n / 256 % 256) (n % 256) = n := by
  rw [u16fromBe]
  omega

theorem code_lt (t : RecordType) : t.code < 65536 := by
  cases t <;> decide

/-- C10: parsing the bytes of `build_query` succeeds: the packet echoes the
header (qdcount 1, all other counts 0), has exactly one question carrying
the decoded name, the requested type and class IN, and empty answer,
authority and additional sections. -/
theorem parse_buildQuery_roundtrip (id flags : Nat) (t : RecordType) (name : List Nat) (fuel : Nat)
    (hid : id < 65536) (hflags : flags < 65536)
    (hlab : ∀ l ∈ name.splitOn 46, l ≠ [] ∧ l.length ≤ 63)
    (hfuel : (name.splitOn 46).length + 1 ≤ fuel) :
    DNSPacket.tryFrom fuel (buildQuery id name t flags) =
      .ok ⟨⟨id, flags, 1, 0, 0, 0⟩, [⟨name, t, DnsClass.In⟩], [], [], []⟩ := by
  have hB : buildQuery id name t flags =
      (u16be id ++ u16be flags ++ [0, 1, 0, 0, 0, 0, 0, 0]) ++
        (encodeDnsName name ++ (u16be t.code ++ [0, 1])) := by
    simp [buildQuery, DNSHeader.new, DNSHeader.toBytes, DNSQuestion.toBytes, u16be,
      DnsClass.code, List.append_assoc]
  have h12 : (u16be id ++ u16be flags ++ ([0, 1, 0, 0, 0, 0, 0, 0] : List Nat)).length = 12 := by
    simp [u16be]
  have hBlen : (buildQuery id name t flags).length = 12 + (encodeDnsName name).length + 4 := by
    rw [hB]
    simp [u16be]
    omega
  have htake : (buildQuery id name t flags).take 12 =
      u16be id ++ u16be flags ++ [0, 1, 0, 0, 0, 0, 0, 0] := by
    rw [hB]
    exact List.take_left' h12
  have hhdr : DNSHeader.tryFrom ((buildQuery id name t flags).take 12) = ⟨id, flags, 1, 0, 0, 0⟩ := by
    rw [htake]
    simp [DNSHeader.tryFrom, u16be, byteAt, u16fromBe]
    omega
  have hdropB : (buildQuery id name t flags).drop 12 =
      encLabels (name.splitOn 46) ++ 0 :: (u16be t.code ++ [0, 1]) := by
    rw [hB, List.drop_left' h12, encodeDnsName_eq]
    simp [List.append_assoc]
  have hdec := decodeNameAux_plain (name.splitOn 46) (buildQuery id name t flags)
    (u16be t.code ++ [0, 1]) 12 fuel 12 [] hlab hdropB hfuel
  rw [List.nil_append] at hdec
  have hnm : List.intercalate [46] (name.splitOn 46) = name := List.intercalate_splitOn name 46
  rw [hnm] at hdec
  have henclen : (encLabels (name.splitOn 46)).length + 1 = (encodeDnsName name).length := by
    rw [encodeDnsName_eq]
    simp
  have hconsumed : 12 + (encLabels (name.splitOn 46)).length + 1 - 12 = (encodeDnsName name).length := by
    omega
  rw [hconsumed] at hdec
  have hdec2 : decodeName (buildQuery id name t flags) fuel 12 =
      .ok name (encodeDnsName name).length := hdec
  have hsplit2 : buildQuery id name t flags =
      ((u16be id ++ u16be flags ++ [0, 1, 0, 0, 0, 0, 0, 0]) ++ encodeDnsName name) ++
        (u16be t.code ++ [0, 1]) := by
    rw [hB]
    simp [List.append_assoc]
  have hpre : ((u16be id ++ u16be flags ++ [0, 1, 0, 0, 0, 0, 0, 0]) ++ encodeDnsName name).length
      = 12 + (encodeDnsName name).length := by
    simp [u16be]
    omega
  have hbyte : ∀ i, byteAt (buildQuery id name t flags) (12 + (encodeDnsName name).length + i) =
      byteAt (u16be t.code ++ [0, 1]) i := by
    intro i
    conv_lhs => rw [hsplit2]
    have h := byteAt_append_right
      ((u16be id ++ u16be flags ++ [0, 1, 0, 0, 0, 0, 0, 0]) ++ encodeDnsName name)
      (u16be t.code ++ [0, 1]) i
    rw [hpre] at h
    exact h
  have hb0 : byteAt (buildQuery id name t flags) (12 + (encodeDnsName name).length) =
      t.code / 256 % 256 := by
    have h := hbyte 0
    simpa [byteAt, u16be] using h
  have hb1 := hbyte 1
  have hb2 := hbyte 2
  have hb3 := hbyte 3
  rw [show byteAt (u16be t.code ++ [0, 1]) 1 = t.code % 256 by simp [byteAt, u16be]] at hb1
  rw [show byteAt (u16be t.code ++ [0, 1]) 2 = 0 by simp [byteAt, u16be]] at hb2
  rw [show byteAt (u16be t.code ++ [0, 1]) 3 = 1 by simp [byteAt, u16be]] at hb3
  have hq : parseQuestions fuel (buildQuery id name t flags) 1 12 =
      .ok [⟨name, t, DnsClass.In⟩] (12 + (encodeDnsName name).length + 4) := by
    rw [parseQuestions, hdec2]
    dsimp only
    rw [if_neg (by rw [hBlen]; omega)]
    rw [hb2, hb3]
    rw [show DnsClass.fromCode (u16fromBe 0 1) = some DnsClass.In by decide]
    dsimp only
    rw [parseQuestions]
    dsimp only
    rw [hb0, hb1, u16fromBe_be t.code (code_lt t), fromCode_code]
  simp only [DNSPacket.tryFrom]
  rw [if_neg (by rw [hBlen]; omega)]
  simp only [hhdr]
  rw [hq]
  dsimp only
  simp only [parseRecords]

/-- Witness for C10 at id 513, flags 0, type A, name "ab.c". -/
theorem parse_buildQuery_roundtrip_witness :
    DNSPacket.tryFrom 3 (buildQuery 513 [97, 98, 46, 99] RecordType.A 0) =
      .ok ⟨⟨513, 0, 1, 0, 0, 0⟩, [⟨[97, 98, 46, 99], RecordType.A, DnsClass.In⟩], [], [], []⟩ :=
  parse_buildQuery_roundtrip 513 0 RecordType.A [97, 98, 46, 99] 3
    (by decide) (by decide) (by decide) (by decide)
